import Mathlib

/-!
# Verification of the DACCe document builder

Shallow embedding of `src/brazilfiscalreport/dacce/dacce.py` (class `DaCCe`):
extraction of fields from a CC-e event XML tree and the fixed A4 page layout
recipe, together with models of the Python / ElementTree primitives it relies
on.  XML qualified tags `\x7buri\x7dlocal` are modelled as a pair of strings
`(ns, name)`; an element without a namespace has `ns = ""`.
-/

namespace DaCCe

/-!
An ElementTree element: namespace URI, local tag name, attribute list,
leading text (`None` or a string, as in ElementTree) and child elements.
The child forest is the mutual type `Elements` (isomorphic to
`List Element`) so that recursion over trees stays structural.
-/
mutual
inductive Element where
  | mk (ns : String) (name : String) (attrs : List (String × String))
      (text : Option String) (children : Elements)

inductive Elements where
  | nil
  | cons (head : Element) (tail : Elements)
end

def Element.ns : Element → String
  | .mk n _ _ _ _ => n

def Element.name : Element → String
  | .mk _ t _ _ _ => t

def Element.attrs : Element → List (String × String)
  | .mk _ _ a _ _ => a

def Element.text : Element → Option String
  | .mk _ _ _ s _ => s

def Element.children : Element → Elements
  | .mk _ _ _ _ c => c

/-- A child forest from a list, for writing concrete trees. -/
def els : List Element → Elements
  | [] => .nil
  | e :: es => .cons e (els es)

/-- The child forest as a list, for the loops of the source that iterate
children directly. -/
def Elements.toList : Elements → List Element
  | .nil => []
  | .cons e es => e :: es.toList

/-- `root.tag.split("\x7d")[0].strip("\x7b")`: the namespace URI read off the
root's tag.  On a tag with no namespace the split leaves the whole tag, so the
local name itself is returned. -/
def nsURI (root : Element) : String :=
  if root.ns = "" then root.name else root.ns

/-- `strip_ns` of the source: the local part of a qualified tag. -/
def localOf (e : Element) : String :=
  e.name

mutual
/-- A preorder search of one element and its whole subtree for the qualified
tag `\x7buri\x7dtag`. -/
def findEl (uri tag : String) : Element → Option Element
  | Element.mk ns name attrs text children =>
    if ns = uri ∧ name = tag then some (Element.mk ns name attrs text children)
    else findInEls uri tag children

/-- First element with qualified tag `\x7buri\x7dtag` among a forest and all
of its descendants, in document (preorder) order — the ElementTree search
`node.find(".//\x7buri\x7d" + tag)` applied to `node`'s children. -/
def findInEls (uri tag : String) : Elements → Option Element
  | .nil => none
  | .cons e rest =>
    match findEl uri tag e with
    | some r => some r
    | none => findInEls uri tag rest
end

/-- `node.find(f".//\x7buri\x7d\x7btag\x7d")` — descendants of `node`, not
`node` itself. -/
def findDesc (uri tag : String) (e : Element) : Option Element :=
  findInEls uri tag e.children

/-- Python `str.strip()` on a character list: drop whitespace from both
ends. -/
def stripList (l : List Char) : List Char :=
  ((l.dropWhile Char.isWhitespace).reverse.dropWhile Char.isWhitespace).reverse

/-- Python `s.strip()`. -/
def pyStrip (s : String) : String :=
  String.mk (stripList s.toList)

/-- `find_text_ns(node, tag)` of the source: `""` when the node is `None`,
otherwise `node.findtext(f".//\x7buri\x7d\x7btag\x7d", default="").strip()`;
ElementTree's `findtext` yields `""` for a matched element whose text is
`None`. -/
def findTextNs (uri : String) (node : Option Element) (tag : String) : String :=
  match node with
  | none => ""
  | some n =>
    match findDesc uri tag n with
    | none => ""
    | some e => pyStrip (e.text.getD "")

/-! ## Python primitives -/

/-- `needle.isPrefixOf hay` on character lists, written out. -/
def listIsPref : List Char → List Char → Bool
  | [], _ => true
  | _ :: _, [] => false
  | a :: as, b :: bs => a = b && listIsPref as bs

/-- Python's `needle in hay` substring test on character lists. -/
def containsSub (needle : List Char) : List Char → Bool
  | [] => listIsPref needle []
  | b :: bs => listIsPref needle (b :: bs) || containsSub needle bs

/-- Python slice `s[a:b]` for `0 ≤ a ≤ b` (out-of-range indices clamp, never
fault). -/
def pySlice (s : String) (a b : Nat) : String :=
  String.mk ((s.toList.drop a).take (b - a))

/-- Python `s[2:]` on `str | None`: slicing `None` raises `TypeError`. -/
def pyDrop2 : Option String → Except String String
  | none => .error "TypeError: NoneType is not subscriptable"
  | some s => .ok (String.mk (s.toList.drop 2))

/-- Value of a list of decimal digit characters. -/
def digitsVal (l : List Char) : Nat :=
  l.foldl (fun n c => 10 * n + (c.toNat - 48)) 0

/-- Digit run of Python's `int(str)` after sign: nonempty, all digits
(underscore grouping of int literals is not modelled; no input here contains
one). -/
def pyIntCore (l : List Char) : Except String Int :=
  if l ≠ [] ∧ l.all Char.isDigit then .ok (digitsVal l : Int)
  else .error "ValueError: invalid literal for int"

/-- Python `int(s)`: strip whitespace, optional sign, decimal digits; raises
`ValueError` otherwise. -/
def pyInt (s : String) : Except String Int :=
  let l := stripList s.toList
  if l.head? = some '-' then (pyIntCore l.tail).map (fun n => -n)
  else if l.head? = some '+' then pyIntCore l.tail
  else pyIntCore l

/-- Insert `sep` after every third character of the reversed digit list —
helper for thousands grouping from the right. -/
def groupRev (sep : Char) : List Char → List Char
  | a :: b :: c :: d :: rest => a :: b :: c :: sep :: groupRev sep (d :: rest)
  | l => l

/-- Thousands-grouped rendering of a digit string, separator `sep`. -/
def groupSep (sep : Char) (l : List Char) : List Char :=
  (groupRev sep l.reverse).reverse

/-- Python `format(n, "0<width>,")`: thousands separators with sign-aware zero
padding; the padding itself is comma-grouped (`format(1, "011,") =
"000,000,001"`). -/
def pyZeroPadComma (width : Nat) (n : Int) : String :=
  let ds := toString n.natAbs
  let sign := if n < 0 then "-" else ""
  let w := width - sign.length
  let grouped := groupSep ',' ds.toList
  let body :=
    if w ≤ grouped.length then grouped
    else groupSep ',' (List.replicate (w - w / 4 - ds.length) '0' ++ ds.toList)
  sign ++ String.mk body

/-- Python `s.lower()` as a character map (the namespace URIs at play are
ASCII, where Python's lowering and the ASCII one agree). -/
def pyLower (s : String) : String :=
  String.mk (s.toList.map Char.toLower)

/-- Map of Python `s.replace(",", ".")` on characters: the pattern and the
replacement are single characters, so the replacement is a character map. -/
def mapCommaDot (l : List Char) : List Char :=
  l.map (fun c => if c = ',' then '.' else c)

/-- Python `s.replace(",", ".")`. -/
def pyReplaceCommaDot (s : String) : String :=
  String.mk (mapCommaDot s.toList)

/-! ## Modelled utilities (not under `src/`) -/

/-- Modelled from the spec: `get_date_utc` from `brazilfiscalreport.utils`
(only its callers are under `src/`).  Contract (§4.1 step 5): parse an
ISO-8601 timestamp with offset and return a `(date "dd/mm/yyyy", time
"HH:MM:SS")` pair; it faults on strings not shaped like an ISO timestamp
(in particular on `""`).  The timezone adjustment is not modelled; no claim
depends on the returned values, only on success and on the pair's use. -/
def getDateUtc (s : String) : Except String (String × String) :=
  let l := s.toList
  let digitAt (i : Nat) : Bool := (l.get? i).elim false Char.isDigit
  let isAt (i : Nat) (c : Char) : Bool := (l.get? i).elim false (· = c)
  if 19 ≤ l.length ∧ digitAt 0 ∧ digitAt 1 ∧ digitAt 2 ∧ digitAt 3 ∧
      isAt 4 '-' ∧ digitAt 5 ∧ digitAt 6 ∧ isAt 7 '-' ∧ digitAt 8 ∧ digitAt 9 ∧
      isAt 10 'T' ∧ digitAt 11 ∧ digitAt 12 ∧ isAt 13 ':' ∧ digitAt 14 ∧
      digitAt 15 ∧ isAt 16 ':' ∧ digitAt 17 ∧ digitAt 18 then
    .ok (String.mk ((l.drop 8).take 2) ++ "/" ++ String.mk ((l.drop 5).take 2) ++ "/" ++
          String.mk (l.take 4),
         String.mk ((l.drop 11).take 8))
  else .error "Invalid isoformat string"

/-- Modelled from the spec: `chunks` from `brazilfiscalreport.utils` (only its
caller is under `src/`).  Contract (§4.1 step 12): split a string into
4-character chunks. -/
def chunks4 : List Char → List String
  | [] => []
  | a :: t => String.mk (a :: t.take 3) :: chunks4 (t.drop 3)
termination_by l => l.length
decreasing_by
  simp only [List.length_drop, List.length_cons]
  omega

/-- Modelled from the spec: `format_cpf_cnpj` from `brazilfiscalreport.utils`
(only its caller is under `src/`).  Contract (§4.1 step 11): 14 digits get
company-id punctuation, anything else individual-id punctuation. -/
def formatCpfCnpj (s : String) : String :=
  let l := s.toList
  if l.length = 14 then
    String.mk (l.take 2) ++ "." ++ String.mk ((l.drop 2).take 3) ++ "." ++
      String.mk ((l.drop 5).take 3) ++ "/" ++ String.mk ((l.drop 8).take 4) ++ "-" ++
      String.mk (l.drop 12)
  else
    String.mk (l.take 3) ++ "." ++ String.mk ((l.drop 3).take 3) ++ "." ++
      String.mk ((l.drop 6).take 3) ++ "-" ++ String.mk (l.drop 9)

/-! ## Canvas commands and page construction (`DaCCe.__init__`) -/

/-- Issuer info dictionary (`emitente`), supplied by the caller. -/
structure Emitente where
  nome : String
  ende : String
  bairro : String
  cidade : String
  uf : String
  fone : String
deriving DecidableEq, Repr

/-- Which image a drawing command embeds. -/
inductive ImgKind where
  | logo
  | barcode
deriving DecidableEq, Repr

/-- One drawing command issued to the canvas (FPDF) collaborator, in
millimetre coordinates. -/
inductive Cmd where
  | setTitle (s : String)
  | addPage
  | rect (x y w h : Int)
  | line (x1 y1 x2 y2 : Int)
  | setXY (x y : Int)
  | setFont (family style : String) (size : Int)
  | text (x y : Int) (s : String)
  | multiCell (w h : Int) (s : String)
  | image (kind : ImgKind)
deriving DecidableEq, Repr

/-- Line 48: `is_nfe = "nfe" in namespace_uri.lower()` — the document-kind
classification. -/
def isNfeOf (root : Element) : Bool :=
  containsSub "nfe".toList (pyLower (nsURI root)).toList

/-- Line 87: the document-kind-dependent subtitle. -/
def docTitleOf (root : Element) : String :=
  if isNfeOf root then "CC-e de Nota Fiscal Eletrônica"
  else "CC-e de Conhecimento de Transporte Eletrônico"

/-- Line 140: which access-key tag is read. -/
def tagChaveOf (root : Element) : String :=
  if isNfeOf root then "chNFe" else "chCTe"

/-- Discharge a `try: ... except: pass`-shaped block: the commands its body
drew, or none when the body raised (the source logs and continues). -/
def catchCmds (x : Except String (List Cmd)) : List Cmd :=
  match x with
  | .ok l => l
  | .error _ => []

/-- Body of the event-id block (lines 94–99): `inf_event.attrib.get("Id")`
then the text `f"ID do Evento: \x7bevento_id[2:]\x7d"`; when the attribute is
absent, `None[2:]` raises `TypeError` inside the `try`. -/
def eventIdBlock (infEvent : Option Element) : Except String (List Cmd) :=
  match infEvent with
  | none => .ok []
  | some e => (pyDrop2 (e.attrs.lookup "Id")).map
      (fun s => [Cmd.text 92 30 ("ID do Evento: " ++ s)])

/-- Body of the creation-timestamp block (lines 101–106):
`get_date_utc(find_text_ns(inf_event, "dhEvento"))` and the `Criado em` line;
raises when the timestamp does not parse (in particular when it is `""`). -/
def createdBlock (uri : String) (infEvent : Option Element) : Except String (List Cmd) :=
  (getDateUtc (findTextNs uri infEvent "dhEvento")).map
    (fun p => [Cmd.text 92 35 ("Criado em: " ++ p.1 ++ " " ++ p.2)])

/-- Body of the protocol block (lines 108–121): when the nested `infEvento` of
`retEvento` is present and both `dhRegEvento` and `nProt` are non-empty, parse
the timestamp and draw the protocol line; otherwise draw nothing. -/
def protocolBlock (uri : String) (infRetEvent : Option Element) : Except String (List Cmd) :=
  match infRetEvent with
  | none => .ok []
  | some r =>
    let dhReg := findTextNs uri (some r) "dhRegEvento"
    let nProt := findTextNs uri (some r) "nProt"
    if dhReg ≠ "" ∧ nProt ≠ "" then
      (getDateUtc dhReg).map
        (fun p => [Cmd.text 92 40
          ("Protocolo: " ++ nProt ++ " - Registrado na SEFAZ em: " ++ p.1 ++ " " ++ p.2)])
    else .ok []

/-- Lines 163–172: variant-specific recipient/author label and raw id with
its one-step fallback (`or` on the falsy empty string). -/
def recipientLabelId (uri : String) (isNfe : Bool) (infRetEvent infEvent : Option Element) :
    String × String :=
  if isNfe then
    let c := findTextNs uri infRetEvent "CNPJDest"
    ("CNPJ Destinatário", if c = "" then findTextNs uri infRetEvent "CNPJ" else c)
  else
    let c := findTextNs uri infEvent "CNPJ"
    ("Autor do Evento", if c = "" then findTextNs uri infEvent "CPF" else c)

/-- Body of the document-number/series block (lines 178–183):
`int(key[25:34])` formatted `"011,"` with commas swapped for dots, and the
series slice `key[22:25]`; raises when the slice is not an int literal. -/
def nfBlock (key : String) : Except String (List Cmd) :=
  (pyInt (pySlice key 25 34)).map
    (fun n => [Cmd.text 12 76
      ("Nota Fiscal: " ++ pyReplaceCommaDot (pyZeroPadComma 11 n) ++
        " - Série: " ++ pySlice key 22 25)])

/-- One structured correction entry's four sub-fields. -/
structure Fields where
  grupo : String
  campo : String
  valor : String
  nroItem : String
deriving DecidableEq, Repr

/-- One step of the `for tag_child in inf_corr` loop (lines 229–238): assign
the matching sub-field from `tag_child.text or ""`. -/
def stepField (f : Fields) (c : Element) : Fields :=
  let t := localOf c
  let v := c.text.getD ""
  if t = "grupoAlterado" then { f with grupo := v }
  else if t = "campoAlterado" then { f with campo := v }
  else if t = "valorAlterado" then { f with valor := v }
  else if t = "nroItemAlterado" then { f with nroItem := v }
  else f

/-- The whole sub-field loop over an entry's children. -/
def foldFields (cs : List Element) : Fields :=
  cs.foldl stepField ⟨"", "", "", ""⟩

/-- Lines 240–244: assemble one correction line, appending the group and item
suffixes only when non-empty. -/
def assembleLine (f : Fields) : String :=
  "Campo: " ++ f.campo ++ " | Valor: " ++ f.valor ++
    (if f.grupo ≠ "" then " | Grupo: " ++ f.grupo else "") ++
    (if f.nroItem ≠ "" then " | Item: " ++ f.nroItem else "")

/-- Lines 221–246: the lines collected from the direct `infCorrecao` children
of the first direct `evCCeCTe` child of `detEvento` (namespace ignored). -/
def corrLines (det : Element) : List String :=
  match det.children.toList.find? (fun c => localOf c = "evCCeCTe") with
  | none => []
  | some ev => ev.children.toList.filterMap
      (fun c => if localOf c = "infCorrecao" then some (assembleLine (foldFields c.children.toList))
                else none)

/-- Body of the structured-correction fallback (lines 211–248): iterating a
`None` `det_event` raises `TypeError`; otherwise join the assembled lines. -/
def corrFallback (det : Option Element) : Except String String :=
  match det with
  | none => .error "TypeError: NoneType is not iterable"
  | some d => .ok (String.intercalate "\n" (corrLines d))

/-- Lines 203–251: the correction narrative — the direct `xCorrecao` text
when non-empty, otherwise the structured fallback with its `try/except`
degrading to `""`. -/
def corrTextOf (uri : String) (det : Option Element) : String :=
  let direct := findTextNs uri det "xCorrecao"
  if direct ≠ "" then direct
  else
    match corrFallback det with
    | .ok s => s
    | .error _ => ""

/-- The fixed legal-notice body text (lines 129–136). -/
def avisoText : String :=
  "De acordo com as determinações legais vigentes, vimos por " ++
  "meio desta comunicar-lhe que a Nota Fiscal, " ++
  "abaixo referenciada, contém irregularidades que estão " ++
  "destacadas e suas respectivas correções. Solicitamos que " ++
  "sejam aplicadas essas correções ao executar seus " ++
  "lançamentos fiscais."

/-- The fixed footer text (lines 257–263). -/
def rodapeText : String :=
  "Este documento é uma representação gráfica da CC-e e " ++
  "foi impresso apenas para sua informação e não possui validade " ++
  "fiscal.\nA CC-e deve ser recebida e mantida em arquivo " ++
  "eletrônico XML e pode ser consultada através dos portais " ++
  "das SEFAZ."

/-- Commands of `DaCCe.__init__` before the barcode image (lines 28–146):
header boxes, issuer block, titles, event/creation/protocol lines, legal
notice.  `bOk` does not enter here. -/
def pagePre (emit : Option Emitente) (hasImage : Bool) (root : Element) : List Cmd :=
  let uri := nsURI root
  let infEvent := findInEls uri "infEvento" root.children
  let retEvent := findInEls uri "retEvento" root.children
  let infRetEvent := match retEvent with
    | none => none
    | some r => findInEls uri "infEvento" r.children
  let emitNome := match emit with
    | none => ""
    | some e => e.nome
  let emitText := match emit with
    | none => ""
    | some e => e.ende ++ "\n" ++ e.bairro ++ "\n" ++ e.cidade ++ " - " ++ e.uf ++ " " ++ e.fone
  let colStart : Int := if hasImage then 23 else 11
  let colEnd : Int := if hasImage then 28 else 24
  let wName : Int := if hasImage then 67 else 80
  [Cmd.setTitle "DACCe", Cmd.addPage,
   Cmd.rect 10 10 190 33, Cmd.line 90 10 90 43] ++
  (if hasImage then [Cmd.image ImgKind.logo] else []) ++
  [Cmd.setXY colStart 16, Cmd.setFont "Helvetica" "B" 10,
   Cmd.multiCell wName 4 emitNome,
   Cmd.setXY 11 colEnd, Cmd.setFont "Helvetica" "" 8,
   Cmd.multiCell 80 4 emitText,
   Cmd.setFont "Helvetica" "B" 10,
   Cmd.text 118 16 "Representação Gráfica de CC-e",
   Cmd.setFont "Helvetica" "I" 9,
   Cmd.text 123 20 ("(" ++ docTitleOf root ++ ")"),
   Cmd.setFont "Helvetica" "" 8] ++
  catchCmds (eventIdBlock infEvent) ++
  catchCmds (createdBlock uri infEvent) ++
  catchCmds (protocolBlock uri infRetEvent) ++
  [Cmd.rect 10 47 190 50, Cmd.line 10 83 200 83,
   Cmd.setXY 11 48, Cmd.setFont "Helvetica" "" 8,
   Cmd.multiCell 185 4 avisoText]

/-- The access key (lines 140–145): `chNFe` for the invoice variant, `chCTe`
otherwise, read beneath `infEvento`. -/
def keyOf (root : Element) : String :=
  let uri := nsURI root
  let infEvent := findInEls uri "infEvento" root.children
  findTextNs uri infEvent (tagChaveOf root)

/-- Commands of `DaCCe.__init__` after the barcode image (lines 158–265):
grouped key text, recipient/author line, number/series line, terms of use,
corrections box, footer. -/
def pagePost (root : Element) : List Cmd :=
  let uri := nsURI root
  let det := findInEls uri "detEvento" root.children
  let infEvent := findInEls uri "infEvento" root.children
  let retEvent := findInEls uri "retEvento" root.children
  let infRetEvent := match retEvent with
    | none => none
    | some r => findInEls uri "infEvento" r.children
  let key := keyOf root
  let rec_ := recipientLabelId uri (isNfeOf root) infRetEvent infEvent
  [Cmd.setFont "Helvetica" "" 7,
   Cmd.text 130 78 (String.intercalate " " (chunks4 key.toList)),
   Cmd.setFont "Helvetica" "B" 9,
   Cmd.text 12 71 (rec_.1 ++ ":  " ++ formatCpfCnpj rec_.2)] ++
  catchCmds (nfBlock key) ++
  [Cmd.setXY 11 84,
   Cmd.setFont "Helvetica" "I" 7,
   Cmd.multiCell 185 3 (findTextNs uri det "xCondUso"),
   Cmd.setFont "Helvetica" "B" 9,
   Cmd.text 11 103 "CORREÇÕES A SEREM CONSIDERADAS",
   Cmd.rect 10 104 190 170,
   Cmd.setXY 11 106,
   Cmd.setFont "Helvetica" "" 8,
   Cmd.multiCell 185 4 (corrTextOf uri det),
   Cmd.setXY 11 265,
   Cmd.setFont "Helvetica" "I" 8,
   Cmd.multiCell 185 4 rodapeText]

/-- The whole of `DaCCe.__init__` on an already parsed tree: `bOk key` tells
whether the external Code128 encoder succeeds on the key (lines 147–156); on
failure only the barcode image is skipped. -/
def buildPage (bOk : String → Bool) (emit : Option Emitente) (hasImage : Bool)
    (root : Element) : List Cmd :=
  pagePre emit hasImage root ++
  (if bOk (keyOf root) then [Cmd.image ImgKind.barcode] else []) ++
  pagePost root

/-! ## Spec-side definitions for refinement claims -/

/-- Following the spec's words for the document number (§4.1 step 10): the
slice value zero-padded to 9 digits, with `.` inserted every 3 digits from
the right. -/
def specNumber (n : Nat) : String :=
  let p := List.replicate (9 - (Nat.repr n).length) '0' ++ (Nat.repr n).toList
  String.mk (p.take 3) ++ "." ++ String.mk ((p.drop 3).take 3) ++ "." ++
    String.mk (p.drop 6)

/-- The last element of a list whose local tag equals `tag` (document order;
later elements take precedence). -/
def lastMatch (tag : String) : List Element → Option Element
  | [] => none
  | c :: cs =>
    match lastMatch tag cs with
    | some e => some e
    | none => if localOf c = tag then some c else none

/-- The text a sub-field element contributes: its text, `""` when `None`. -/
def textOrEmpty (e : Element) : String :=
  e.text.getD ""

/-- The drawing commands every page receives whatever the record resolves to:
header box, titles, advisory box with the legal notice, corrections header
and box, footer. -/
def fixedCmds : List Cmd :=
  [Cmd.setTitle "DACCe", Cmd.addPage,
   Cmd.rect 10 10 190 33, Cmd.line 90 10 90 43,
   Cmd.text 118 16 "Representação Gráfica de CC-e",
   Cmd.rect 10 47 190 50, Cmd.line 10 83 200 83,
   Cmd.multiCell 185 4 avisoText,
   Cmd.text 11 103 "CORREÇÕES A SEREM CONSIDERADAS",
   Cmd.rect 10 104 190 170,
   Cmd.multiCell 185 4 rodapeText]

/-! ## Concrete fixture trees used by witnesses -/

/-- A correction-event group with two structured entries: the spec's example
entry (field `Amount`, value `100.00`, item `2`, no group) and an entry with
a group. -/
def evCCeFix : Element :=
  Element.mk "u" "evCCeCTe" [] none (els
    [Element.mk "u" "infCorrecao" [] none (els
      [Element.mk "u" "campoAlterado" [] (some "Amount") (els []),
       Element.mk "u" "valorAlterado" [] (some "100.00") (els []),
       Element.mk "u" "nroItemAlterado" [] (some "2") (els [])]),
     Element.mk "u" "infCorrecao" [] none (els
      [Element.mk "u" "grupoAlterado" [] (some "ide") (els []),
       Element.mk "u" "campoAlterado" [] (some "cMunIni") (els []),
       Element.mk "u" "valorAlterado" [] (some "3550308") (els [])])])

/-- A `detEvento` with no direct correction text and the group above. -/
def detFix : Element :=
  Element.mk "u" "detEvento" [] none (els [evCCeFix])

/-! ## Helper lemmas: substring search -/

theorem listIsPref_iff (n h : List Char) : listIsPref n h = true ↔ ∃ t, h = n ++ t := by
  induction n generalizing h with
  | nil => simp [listIsPref]
  | cons a as ih =>
    cases h with
    | nil => simp [listIsPref]
    | cons b bs =>
      simp only [listIsPref, Bool.and_eq_true, decide_eq_true_eq, ih, List.cons_append,
        List.cons.injEq]
      constructor
      · rintro ⟨rfl, t, rfl⟩
        exact ⟨t, rfl, rfl⟩
      · rintro ⟨t, rfl, rfl⟩
        exact ⟨rfl, t, rfl⟩

theorem containsSub_iff (n h : List Char) :
    containsSub n h = true ↔ ∃ s t, h = s ++ n ++ t := by
  induction h with
  | nil =>
    simp only [containsSub, listIsPref_iff]
    constructor
    · rintro ⟨t, ht⟩
      exact ⟨[], t, by simpa using ht⟩
    · rintro ⟨s, t, hst⟩
      rcases List.append_eq_nil.1 (List.append_eq_nil.1 hst.symm).1 with ⟨rfl, rfl⟩
      exact ⟨t, by simpa using hst⟩
  | cons b bs ih =>
    simp only [containsSub, Bool.or_eq_true, listIsPref_iff, ih]
    constructor
    · rintro (⟨t, ht⟩ | ⟨s, t, rfl⟩)
      · exact ⟨[], t, by simpa using ht⟩
      · exact ⟨b :: s, t, rfl⟩
    · rintro ⟨s, t, hst⟩
      cases s with
      | nil => exact Or.inl ⟨t, by simpa using hst⟩
      | cons x xs =>
        simp only [List.cons_append, List.cons.injEq] at hst
        exact Or.inr ⟨xs, t, hst.2⟩

/-! ## Helper lemmas: characters and Python `int` -/

theorem isDigit_toNat {c : Char} (h : c.isDigit = true) :
    48 ≤ c.toNat ∧ c.toNat ≤ 57 := by
  simp only [Char.isDigit, ge_iff_le, Bool.and_eq_true, decide_eq_true_eq] at h
  exact ⟨UInt32.le_toNat_of_le (by decide) h.1, UInt32.toNat_le_of_le (by decide) h.2⟩

theorem isDigit_not_ws {c : Char} (h : c.isDigit = true) : c.isWhitespace = false := by
  by_contra hw
  rw [Bool.not_eq_false] at hw
  simp only [Char.isWhitespace, Bool.or_eq_true, decide_eq_true_eq] at hw
  rcases hw with ((rfl | rfl) | rfl) | rfl <;> exact absurd h (by decide)

theorem isDigit_ne_of {c d : Char} (h : c.isDigit = true) (hd : d.isDigit = false) :
    c ≠ d := by
  rintro rfl
  rw [h] at hd
  exact Bool.noConfusion hd

theorem dropWhile_ws_of_digits (l : List Char) (h : ∀ c ∈ l, c.isDigit = true) :
    l.dropWhile Char.isWhitespace = l := by
  cases l with
  | nil => rfl
  | cons a t =>
    rw [List.dropWhile_cons_of_neg]
    simp [isDigit_not_ws (h a (List.mem_cons_self a t))]

theorem pyInt_digits (l : List Char) (h0 : l ≠ []) (h : ∀ c ∈ l, c.isDigit = true) :
    pyInt (String.mk l) = .ok (digitsVal l : Int) := by
  have htl : (String.mk l).toList = l := rfl
  have hrev : ∀ c ∈ l.reverse, c.isDigit = true := fun c hc => h c (List.mem_reverse.1 hc)
  rw [pyInt]
  simp only [htl, stripList, dropWhile_ws_of_digits l h, dropWhile_ws_of_digits l.reverse hrev,
    List.reverse_reverse]
  cases l with
  | nil => exact absurd rfl h0
  | cons a t =>
    have ha := h a (List.mem_cons_self a t)
    rw [if_neg (by simp only [List.head?_cons, Option.some.injEq]; exact isDigit_ne_of ha (by decide)),
        if_neg (by simp only [List.head?_cons, Option.some.injEq]; exact isDigit_ne_of ha (by decide))]
    rw [pyIntCore, if_pos]
    exact ⟨List.cons_ne_nil a t, List.all_eq_true.2 h⟩

theorem pyInt_nil : pyInt (String.mk []) = .error "ValueError: invalid literal for int" := by
  rfl

theorem digitsVal_aux (l : List Char) (h : ∀ c ∈ l, c.isDigit = true) :
    ∀ a : Nat, l.foldl (fun n c => 10 * n + (c.toNat - 48)) a < (a + 1) * 10 ^ l.length := by
  induction l with
  | nil => intro a; simp
  | cons c t ih =>
    intro a
    have hc := isDigit_toNat (h c (List.mem_cons_self c t))
    have ht := ih (fun x hx => h x (List.mem_cons_of_mem c hx)) (10 * a + (c.toNat - 48))
    calc (c :: t).foldl (fun n c => 10 * n + (c.toNat - 48)) a
        = t.foldl (fun n c => 10 * n + (c.toNat - 48)) (10 * a + (c.toNat - 48)) := rfl
      _ < (10 * a + (c.toNat - 48) + 1) * 10 ^ t.length := ht
      _ ≤ ((a + 1) * 10) * 10 ^ t.length := by
          have : 10 * a + (c.toNat - 48) + 1 ≤ (a + 1) * 10 := by omega
          exact Nat.mul_le_mul_right _ this
      _ = (a + 1) * 10 ^ (c :: t).length := by
          rw [List.length_cons, pow_succ]
          ring

theorem digitsVal_lt (l : List Char) (h : ∀ c ∈ l, c.isDigit = true) :
    digitsVal l < 10 ^ l.length := by
  simpa [digitsVal] using digitsVal_aux l h 0

/-! ## Helper lemmas: thousands grouping and `Nat.repr` -/

theorem groupRev_length (sep : Char) : ∀ l : List Char,
    (groupRev sep l).length = l.length + (l.length - 1) / 3
  | [] => by simp [groupRev]
  | [_] => by simp [groupRev]
  | [_, _] => by simp [groupRev]
  | [_, _, _] => by simp [groupRev]
  | a :: b :: c :: d :: rest => by
    have ih := groupRev_length sep (d :: rest)
    simp only [groupRev, List.length_cons, ih]
    omega

theorem groupSep_length (sep : Char) (l : List Char) :
    (groupSep sep l).length = l.length + (l.length - 1) / 3 := by
  simp [groupSep, groupRev_length]

theorem groupSep_nine (sep : Char) (a b c d e f g h i : Char) :
    groupSep sep [a, b, c, d, e, f, g, h, i] = [a, b, c, sep, d, e, f, sep, g, h, i] := rfl

theorem digitChar_isDigit {m : Nat} (h : m < 10) : (Nat.digitChar m).isDigit = true := by
  interval_cases m <;> decide

theorem toDigitsCore_digits :
    ∀ (fuel n : Nat) (ds : List Char), (∀ c ∈ ds, c.isDigit = true) →
      ∀ c ∈ Nat.toDigitsCore 10 fuel n ds, c.isDigit = true := by
  intro fuel
  induction fuel with
  | zero => intro n ds hds; exact hds
  | succ f ih =>
    intro n ds hds c hc
    rw [Nat.toDigitsCore] at hc
    have hd : ∀ x ∈ Nat.digitChar (n % 10) :: ds, x.isDigit = true := by
      intro x hx
      rcases List.mem_cons.1 hx with rfl | hx
      · exact digitChar_isDigit (Nat.mod_lt n (by omega))
      · exact hds x hx
    by_cases hnz : n / 10 = 0
    · rw [if_pos hnz] at hc
      exact hd c hc
    · rw [if_neg hnz] at hc
      exact ih (n / 10) (Nat.digitChar (n % 10) :: ds) hd c hc

theorem repr_digits (n : Nat) : ∀ c ∈ (Nat.repr n).toList, c.isDigit = true := by
  have h : (Nat.repr n).toList = Nat.toDigitsCore 10 (n + 1) n [] := rfl
  rw [h]
  exact toDigitsCore_digits (n + 1) n [] (by simp)

theorem repr_toList_length (n : Nat) : (Nat.repr n).toList.length = (Nat.repr n).length := rfl

theorem repr_len_le_nine {n : Nat} (h : n < 1000000000) : (Nat.repr n).length ≤ 9 :=
  Nat.repr_length n 9 (by norm_num) (by norm_num [h])

theorem mk_append (l1 l2 : List Char) :
    String.mk l1 ++ String.mk l2 = String.mk (l1 ++ l2) := rfl

theorem length_nine_destruct (p : List Char) (hp : p.length = 9) :
    ∃ a b c d e f g h i, p = [a, b, c, d, e, f, g, h, i] := by
  obtain ⟨a, p, rfl⟩ := List.exists_of_length_succ p hp
  simp only [List.length_cons, Nat.succ_inj] at hp
  obtain ⟨b, p, rfl⟩ := List.exists_of_length_succ p hp
  simp only [List.length_cons, Nat.succ_inj] at hp
  obtain ⟨c, p, rfl⟩ := List.exists_of_length_succ p hp
  simp only [List.length_cons, Nat.succ_inj] at hp
  obtain ⟨d, p, rfl⟩ := List.exists_of_length_succ p hp
  simp only [List.length_cons, Nat.succ_inj] at hp
  obtain ⟨e, p, rfl⟩ := List.exists_of_length_succ p hp
  simp only [List.length_cons, Nat.succ_inj] at hp
  obtain ⟨f, p, rfl⟩ := List.exists_of_length_succ p hp
  simp only [List.length_cons, Nat.succ_inj] at hp
  obtain ⟨g, p, rfl⟩ := List.exists_of_length_succ p hp
  simp only [List.length_cons, Nat.succ_inj] at hp
  obtain ⟨h, p, rfl⟩ := List.exists_of_length_succ p hp
  simp only [List.length_cons, Nat.succ_inj] at hp
  obtain ⟨i, p, rfl⟩ := List.exists_of_length_succ p hp
  simp only [List.length_cons, Nat.succ_inj] at hp
  rw [List.length_eq_zero] at hp
  subst hp
  exact ⟨a, b, c, d, e, f, g, h, i, rfl⟩

theorem pyZeroPadComma_eq {m : Nat} (h : m < 1000000000) :
    pyZeroPadComma 11 (m : Int) =
      String.mk (groupSep ',' (List.replicate (9 - (Nat.repr m).length) '0' ++
        (Nat.repr m).toList)) := by
  have h2 : ¬ ((m : Int) < 0) := not_lt.2 (Int.natCast_nonneg m)
  have h3 : toString (Int.natAbs (m : Int)) = Nat.repr m := by
    rw [Int.natAbs_ofNat]
    rfl
  rw [pyZeroPadComma]
  simp only [h2, if_false, h3, String.length_empty, Nat.sub_zero]
  have hlen : (Nat.repr m).length ≤ 9 := repr_len_le_nine h
  have hgl : (groupSep ',' (Nat.repr m).toList).length =
      (Nat.repr m).length + ((Nat.repr m).length - 1) / 3 := by
    rw [groupSep_length, repr_toList_length]
  rcases Nat.lt_or_ge (Nat.repr m).length 9 with h9 | h9
  · rw [if_neg (by omega)]
    rw [show (11 : Nat) - 11 / 4 - (Nat.repr m).length = 9 - (Nat.repr m).length by omega]
    rfl
  · have h9' : (Nat.repr m).length = 9 := le_antisymm hlen h9
    rw [if_pos (by omega)]
    rw [show (9 : Nat) - (Nat.repr m).length = 0 by omega]
    simp only [List.replicate_zero, List.nil_append]
    rfl

theorem nfNum_eq_specNumber {m : Nat} (h : m < 1000000000) :
    pyReplaceCommaDot (pyZeroPadComma 11 (m : Int)) = specNumber m := by
  rw [pyZeroPadComma_eq h]
  have hlen : (List.replicate (9 - (Nat.repr m).length) '0' ++ (Nat.repr m).toList).length = 9 := by
    rw [List.length_append, List.length_replicate, repr_toList_length]
    have := repr_len_le_nine h
    omega
  have hdig : ∀ c ∈ List.replicate (9 - (Nat.repr m).length) '0' ++ (Nat.repr m).toList,
      c.isDigit = true := by
    intro c hc
    rcases List.mem_append.1 hc with hc | hc
    · rw [List.eq_of_mem_replicate hc]; decide
    · exact repr_digits m c hc
  obtain ⟨a, b, c, d, e, f, g, h', i, hp⟩ := length_nine_destruct _ hlen
  rw [specNumber, hp, groupSep_nine]
  have hda : ∀ x ∈ [a, b, c, d, e, f, g, h', i], (if x = ',' then '.' else x) = x := by
    intro x hx
    rw [hp] at hdig
    exact if_neg (isDigit_ne_of (hdig x hx) (by decide))
  simp only [pyReplaceCommaDot, mapCommaDot, String.toList]
  simp only [List.map_cons, List.map_nil, if_pos rfl]
  rw [hda a (by simp), hda b (by simp), hda c (by simp), hda d (by simp),
      hda e (by simp), hda f (by simp), hda g (by simp), hda h' (by simp), hda i (by simp)]
  rfl

/-! ## Claims C3 and C4: the document-number/series line -/

/-- C3 counterexample: a 26-digit access key — shorter than 44 characters —
still produces a populated number/series line, because the partial slice
`key[25:34] = "1"` parses as an integer; the claim predicts both derived
fields resolve to empty. -/
theorem c3_counterexample :
    ("11111111111111111111111111" : String).toList.length < 44 ∧
    catchCmds (nfBlock "11111111111111111111111111") =
      [Cmd.text 12 76 "Nota Fiscal: 000.000.001 - Série: 111"] ∧
    catchCmds (nfBlock "11111111111111111111111111") ≠ [] := by
  refine ⟨by decide, by decide, by decide⟩

/-- C3 (amended): the number/series line is suppressed — never a fault —
exactly when the 9-character slice at positions 25–33 fails to parse as an
integer; in particular any key of at most 25 characters (including the empty
key) yields no line, while longer non-44 digit keys may still produce one. -/
theorem c3_amended (key : String) :
    (key.toList.length ≤ 25 → catchCmds (nfBlock key) = []) ∧
    (catchCmds (nfBlock key) = [] ↔ (pyInt (pySlice key 25 34)).isOk = false) := by
  constructor
  · intro h
    have hsl : pySlice key 25 34 = String.mk [] := by
      rw [pySlice, List.drop_eq_nil_of_le h]
      rfl
    rw [nfBlock, hsl, pyInt_nil]
    rfl
  · rw [nfBlock]
    cases hp : pyInt (pySlice key 25 34) with
    | error e => simp [catchCmds, Except.map, Except.isOk, Except.toBool]
    | ok n => simp [catchCmds, Except.map, Except.isOk, Except.toBool]

/-- C3 amended witness: the empty key draws no number/series line. -/
theorem c3_witness : catchCmds (nfBlock "") = [] :=
  (c3_amended "").1 (by decide)

/-- C4: on a 44-digit access key the series is the 3-character slice at
positions 22–24 and the number is the 9-character slice at positions 25–33,
parsed as an integer and re-rendered zero-padded to 9 digits with `.`
inserted every 3 digits from the right (`specNumber`). -/
theorem c4_number_series (key : String) (h1 : key.toList.length = 44)
    (h2 : ∀ c ∈ key.toList, c.isDigit = true) :
    catchCmds (nfBlock key) = [Cmd.text 12 76
      ("Nota Fiscal: " ++ specNumber (digitsVal ((key.toList.drop 25).take 9)) ++
        " - Série: " ++ String.mk ((key.toList.drop 22).take 3))] := by
  have hslice : pySlice key 25 34 = String.mk ((key.toList.drop 25).take 9) := rfl
  have h1' : key.length = 44 := h1
  have hlen : ((key.toList.drop 25).take 9).length = 9 := by
    simp [List.length_take, List.length_drop, h1']
  have hdig : ∀ c ∈ (key.toList.drop 25).take 9, c.isDigit = true := fun c hc =>
    h2 c (List.drop_subset 25 key.toList (List.take_subset 9 _ hc))
  have hne : (key.toList.drop 25).take 9 ≠ [] := by
    intro hnil
    rw [hnil] at hlen
    simp at hlen
  have hint : pyInt (String.mk ((key.toList.drop 25).take 9)) =
      .ok (digitsVal ((key.toList.drop 25).take 9) : Int) :=
    pyInt_digits _ hne hdig
  have hlt : digitsVal ((key.toList.drop 25).take 9) < 1000000000 := by
    have := digitsVal_lt _ hdig
    rw [hlen] at this
    norm_num at this
    exact this
  rw [nfBlock, hslice, hint]
  simp only [Except.map, catchCmds]
  rw [nfNum_eq_specNumber hlt]
  rfl

/-- C4 witness: the spec's example — series slice `"123"`, number slice
`"000004567"` — yields series `123` and number `000.004.567`. -/
theorem c4_witness :
    catchCmds (nfBlock "00000000000000000000001230000045670000000000") =
      [Cmd.text 12 76 "Nota Fiscal: 000.004.567 - Série: 123"] := by
  rw [c4_number_series "00000000000000000000001230000045670000000000" (by decide) (by decide)]
  decide

/-! ## Claims C5, C6, C7, C8 -/

/-- C5: the document kind is the invoice variant exactly when the root's
namespace URI (lower-cased) contains the substring `"nfe"`; the
classification selects the subtitle and the access-key tag. -/
theorem c5_document_kind (root : Element) :
    (isNfeOf root = true ↔
      ∃ s t, (pyLower (nsURI root)).toList = s ++ "nfe".toList ++ t) ∧
    (isNfeOf root = true →
      docTitleOf root = "CC-e de Nota Fiscal Eletrônica" ∧ tagChaveOf root = "chNFe") ∧
    (isNfeOf root = false →
      docTitleOf root = "CC-e de Conhecimento de Transporte Eletrônico" ∧
        tagChaveOf root = "chCTe") ∧
    keyOf root = findTextNs (nsURI root)
      (findInEls (nsURI root) "infEvento" root.children) (tagChaveOf root) := by
  refine ⟨?_, ?_, ?_, rfl⟩
  · rw [isNfeOf]
    exact containsSub_iff _ _
  · intro h
    rw [docTitleOf, tagChaveOf, if_pos h, if_pos h]
    exact ⟨rfl, rfl⟩
  · intro h
    rw [docTitleOf, tagChaveOf, if_neg (by simp [h]), if_neg (by simp [h])]
    exact ⟨rfl, rfl⟩

/-- C5 witness: an NFe-namespace root is classified invoice (NFe title and
`chNFe` key tag); a CTe-namespace root is classified transport. -/
theorem c5_witness :
    docTitleOf (Element.mk "http://www.portalfiscal.inf.br/nfe" "procEventoNFe" [] none (els [])) =
      "CC-e de Nota Fiscal Eletrônica" ∧
    tagChaveOf (Element.mk "http://www.portalfiscal.inf.br/nfe" "procEventoNFe" [] none (els [])) =
      "chNFe" ∧
    docTitleOf (Element.mk "http://www.portalfiscal.inf.br/cte" "procEventoCTe" [] none (els [])) =
      "CC-e de Conhecimento de Transporte Eletrônico" ∧
    tagChaveOf (Element.mk "http://www.portalfiscal.inf.br/cte" "procEventoCTe" [] none (els [])) =
      "chCTe" := by
  have h1 := (c5_document_kind
    (Element.mk "http://www.portalfiscal.inf.br/nfe" "procEventoNFe" [] none (els []))).2.1
    (by decide)
  have h2 := (c5_document_kind
    (Element.mk "http://www.portalfiscal.inf.br/cte" "procEventoCTe" [] none (els []))).2.2.1
    (by decide)
  exact ⟨h1.1, h1.2, h2.1, h2.2⟩

/-- C6: given that a non-empty registration timestamp is well-formed (the
`get_date_utc` contract), the protocol line is drawn iff both the protocol
number and the registration timestamp are non-empty. -/
theorem c6_protocol_line (uri : String) (ir : Option Element)
    (h : findTextNs uri ir "dhRegEvento" ≠ "" →
      (getDateUtc (findTextNs uri ir "dhRegEvento")).isOk = true) :
    (catchCmds (protocolBlock uri ir) ≠ [] ↔
      (findTextNs uri ir "nProt" ≠ "" ∧ findTextNs uri ir "dhRegEvento" ≠ "")) := by
  cases ir with
  | none => simp [protocolBlock, catchCmds, findTextNs]
  | some r =>
    rw [protocolBlock]
    by_cases hdh : findTextNs uri (some r) "dhRegEvento" = ""
    · rw [if_neg (by simp [hdh])]
      simp [catchCmds, hdh]
    · by_cases hnp : findTextNs uri (some r) "nProt" = ""
      · rw [if_neg (by simp [hnp])]
        simp [catchCmds, hnp]
      · rw [if_pos ⟨hdh, hnp⟩]
        obtain ⟨p, hp⟩ : ∃ p, getDateUtc (findTextNs uri (some r) "dhRegEvento") = .ok p := by
          have hok := h hdh
          cases hgd : getDateUtc (findTextNs uri (some r) "dhRegEvento") with
          | ok p => exact ⟨p, rfl⟩
          | error e => rw [hgd] at hok; exact absurd hok (by simp [Except.isOk, Except.toBool])
        rw [hp]
        simp [catchCmds, Except.map, hdh, hnp]

/-- C6 witness: with both fields present and a well-formed timestamp the
protocol line is drawn; the suppression direction at a record with a protocol
number but no registration timestamp follows from the same theorem. -/
theorem c6_witness :
    catchCmds (protocolBlock "u" (some (Element.mk "u" "infEvento" [] none (els
      [Element.mk "u" "dhRegEvento" [] (some "2023-05-14T10:20:00-03:00") (els []),
       Element.mk "u" "nProt" [] (some "135230000000001") (els [])])))) ≠ [] ∧
    catchCmds (protocolBlock "u" (some (Element.mk "u" "infEvento" [] none (els
      [Element.mk "u" "nProt" [] (some "135230000000001") (els [])])))) = [] := by
  constructor
  · exact (c6_protocol_line "u" _ (fun _ => by decide)).2 ⟨by decide, by decide⟩
  · by_contra hne
    have := (c6_protocol_line "u" _ (fun hdh => absurd (by decide : findTextNs "u"
      (some (Element.mk "u" "infEvento" [] none (els
        [Element.mk "u" "nProt" [] (some "135230000000001") (els [])])))
        "dhRegEvento" = "") hdh)).1 hne
    exact absurd this.2 (by decide)

/-- C7: recipient/author resolution is variant-specific — invoice: label
`CNPJ Destinatário`, id from `CNPJDest` under registration-info with fallback
to `CNPJ` there; transport: label `Autor do Evento`, id from `CNPJ` on
`infEvento` with fallback to `CPF` there. -/
theorem c7_recipient (uri : String) (ir ie : Option Element) :
    ((recipientLabelId uri true ir ie).1 = "CNPJ Destinatário" ∧
     (findTextNs uri ir "CNPJDest" ≠ "" →
       (recipientLabelId uri true ir ie).2 = findTextNs uri ir "CNPJDest") ∧
     (findTextNs uri ir "CNPJDest" = "" →
       (recipientLabelId uri true ir ie).2 = findTextNs uri ir "CNPJ")) ∧
    ((recipientLabelId uri false ir ie).1 = "Autor do Evento" ∧
     (findTextNs uri ie "CNPJ" ≠ "" →
       (recipientLabelId uri false ir ie).2 = findTextNs uri ie "CNPJ") ∧
     (findTextNs uri ie "CNPJ" = "" →
       (recipientLabelId uri false ir ie).2 = findTextNs uri ie "CPF")) := by
  refine ⟨⟨rfl, fun h => ?_, fun h => ?_⟩, ⟨rfl, fun h => ?_, fun h => ?_⟩⟩ <;>
    simp [recipientLabelId, h]

/-- C7 witness: concrete invoice and transport resolutions, including one
fallback (invoice record with empty `CNPJDest` falling back to `CNPJ`). -/
theorem c7_witness :
    (recipientLabelId "u" true
      (some (Element.mk "u" "infEvento" [] none (els
        [Element.mk "u" "CNPJ" [] (some "12345678000195") (els [])]))) none).2 =
      "12345678000195" ∧
    (recipientLabelId "u" false none
      (some (Element.mk "u" "infEvento" [] none (els
        [Element.mk "u" "CNPJ" [] (some "98765432000110") (els [])])))).2 =
      "98765432000110" := by
  constructor
  · have := ((c7_recipient "u"
      (some (Element.mk "u" "infEvento" [] none (els
        [Element.mk "u" "CNPJ" [] (some "12345678000195") (els [])]))) none).1).2.2 (by decide)
    rw [this]
    decide
  · have := ((c7_recipient "u" none
      (some (Element.mk "u" "infEvento" [] none (els
        [Element.mk "u" "CNPJ" [] (some "98765432000110") (els [])])))).2).2.1 (by decide)
    rw [this]
    decide

/-- C8 counterexample: an `infEvento` with no `Id` attribute — the claim says
`event_id` resolves to the empty string, i.e. the line `ID do Evento: ` is
drawn; the code raises `TypeError` on `None[2:]`, catches it and omits the
whole line. -/
theorem c8_counterexample :
    catchCmds (eventIdBlock (some (Element.mk "u" "infEvento" [] none (els [])))) = [] ∧
    catchCmds (eventIdBlock (some (Element.mk "u" "infEvento" [] none (els [])))) ≠
      [Cmd.text 92 30 "ID do Evento: "] := by
  exact ⟨by decide, by decide⟩

/-- C8 (amended): the event id is the `Id` attribute with its first two
characters dropped; an attribute shorter than 2 characters yields the empty
id with the line still drawn; a missing attribute omits the line entirely
(the internally caught `TypeError`), and no fault propagates. -/
theorem c8_amended (e : Element) :
    (e.attrs.lookup "Id" = none → catchCmds (eventIdBlock (some e)) = []) ∧
    (∀ v, e.attrs.lookup "Id" = some v →
      catchCmds (eventIdBlock (some e)) =
        [Cmd.text 92 30 ("ID do Evento: " ++ String.mk (v.toList.drop 2))]) ∧
    (∀ v, e.attrs.lookup "Id" = some v → v.toList.length < 2 →
      catchCmds (eventIdBlock (some e)) = [Cmd.text 92 30 "ID do Evento: "]) := by
  refine ⟨fun h => ?_, fun v hv => ?_, fun v hv hlen => ?_⟩
  · rw [eventIdBlock, h]
    rfl
  · rw [eventIdBlock, hv]
    rfl
  · rw [eventIdBlock, hv]
    have : v.toList.drop 2 = [] := List.drop_eq_nil_of_le (by omega)
    simp only [pyDrop2, Except.map, catchCmds, this]
    rfl

/-- C8 amended witness: a 1-character `Id` attribute draws the line with an
empty event id. -/
theorem c8_witness :
    catchCmds (eventIdBlock (some (Element.mk "u" "infEvento" [("Id", "X")] none (els [])))) =
      [Cmd.text 92 30 "ID do Evento: "] :=
  (c8_amended (Element.mk "u" "infEvento" [("Id", "X")] none (els []))).2.2 "X" (by decide) (by decide)

/-! ## Helper lemmas: the sub-field assignment loop -/

theorem stepField_grupo (f : Fields) (c : Element) :
    (stepField f c).grupo = if localOf c = "grupoAlterado" then c.text.getD "" else f.grupo := by
  by_cases h1 : localOf c = "grupoAlterado"
  · simp [stepField, h1]
  · by_cases h2 : localOf c = "campoAlterado"
    · simp [stepField, h1, h2]
    · by_cases h3 : localOf c = "valorAlterado"
      · simp [stepField, h1, h2, h3]
      · by_cases h4 : localOf c = "nroItemAlterado"
        · simp [stepField, h1, h2, h3, h4]
        · simp [stepField, h1, h2, h3, h4]

theorem stepField_campo (f : Fields) (c : Element) :
    (stepField f c).campo = if localOf c = "campoAlterado" then c.text.getD "" else f.campo := by
  by_cases h1 : localOf c = "grupoAlterado"
  · simp [stepField, h1]
  · by_cases h2 : localOf c = "campoAlterado"
    · simp [stepField, h1, h2]
    · by_cases h3 : localOf c = "valorAlterado"
      · simp [stepField, h1, h2, h3]
      · by_cases h4 : localOf c = "nroItemAlterado"
        · simp [stepField, h1, h2, h3, h4]
        · simp [stepField, h1, h2, h3, h4]

theorem stepField_valor (f : Fields) (c : Element) :
    (stepField f c).valor = if localOf c = "valorAlterado" then c.text.getD "" else f.valor := by
  by_cases h1 : localOf c = "grupoAlterado"
  · simp [stepField, h1]
  · by_cases h2 : localOf c = "campoAlterado"
    · simp [stepField, h1, h2]
    · by_cases h3 : localOf c = "valorAlterado"
      · simp [stepField, h1, h2, h3]
      · by_cases h4 : localOf c = "nroItemAlterado"
        · simp [stepField, h1, h2, h3, h4]
        · simp [stepField, h1, h2, h3, h4]

theorem stepField_nroItem (f : Fields) (c : Element) :
    (stepField f c).nroItem =
      if localOf c = "nroItemAlterado" then c.text.getD "" else f.nroItem := by
  by_cases h1 : localOf c = "grupoAlterado"
  · simp [stepField, h1]
  · by_cases h2 : localOf c = "campoAlterado"
    · simp [stepField, h1, h2]
    · by_cases h3 : localOf c = "valorAlterado"
      · simp [stepField, h1, h2, h3]
      · by_cases h4 : localOf c = "nroItemAlterado"
        · simp [stepField, h1, h2, h3, h4]
        · simp [stepField, h1, h2, h3, h4]

theorem foldl_proj (tag : String) (proj : Fields → String)
    (hproj : ∀ f c, proj (stepField f c) =
      if localOf c = tag then c.text.getD "" else proj f) :
    ∀ (cs : List Element) (f : Fields),
      proj (cs.foldl stepField f) = (lastMatch tag cs).elim (proj f) textOrEmpty := by
  intro cs
  induction cs with
  | nil => intro f; rfl
  | cons c cs ih =>
    intro f
    rw [List.foldl_cons, ih (stepField f c), lastMatch]
    cases h : lastMatch tag cs with
    | some e => rfl
    | none =>
      simp only [Option.elim]
      rw [hproj]
      by_cases hc : localOf c = tag
      · simp [hc, textOrEmpty]
      · simp [hc]

/-- `foldFields` is the loop started from all-empty fields. -/
theorem foldFields_eq (cs : List Element) :
    foldFields cs = cs.foldl stepField ⟨"", "", "", ""⟩ := rfl

/-! ## Claims C2 and C10: the structured correction fallback -/

/-- C2 counterexample: an entry with field `Amount`, value `100.00`, no group
and item `2` assembles to `Campo: Amount | Valor: 100.00 | Item: 2` — the
first slot carries the altered-field name, not the value, so the claim's line
`Field: 100.00 | Value: 100.00 | Item: 2` is wrong even after translating the
labels (`Campo`/`Valor` are the source's literals for Field/Value). -/
theorem c2_counterexample :
    corrTextOf "u" (some (Element.mk "u" "detEvento" [] none (els
      [Element.mk "u" "evCCeCTe" [] none (els
        [Element.mk "u" "infCorrecao" [] none (els
          [Element.mk "u" "campoAlterado" [] (some "Amount") (els []),
           Element.mk "u" "valorAlterado" [] (some "100.00") (els []),
           Element.mk "u" "nroItemAlterado" [] (some "2") (els [])])])]))) =
      "Campo: Amount | Valor: 100.00 | Item: 2" ∧
    ("Campo: Amount | Valor: 100.00 | Item: 2" : String) ≠
      "Field: 100.00 | Value: 100.00 | Item: 2" ∧
    ("Campo: Amount | Valor: 100.00 | Item: 2" : String) ≠
      "Campo: 100.00 | Valor: 100.00 | Item: 2" :=
  ⟨by decide, by decide, by decide⟩

/-- C2 (amended): when the direct correction text is empty, the extractor —
with no document-kind gate — scans `detEvento`'s direct children (namespace
ignored) for `evCCeCTe`, and assembles one line per `infCorrecao` entry as
`Campo: `field` | Valor: `value (the spec's Field/Value labels translate the
source's `Campo`/`Valor`; the first slot holds the altered-field name),
appending ` | Grupo: `g and/or ` | Item: `n only when non-empty, joined by
newline. -/
theorem c2_amended_fallback (uri : String) (det ev : Element)
    (hdirect : findTextNs uri (some det) "xCorrecao" = "")
    (hev : det.children.toList.find? (fun c => localOf c = "evCCeCTe") = some ev) :
    corrTextOf uri (some det) = String.intercalate "\n"
      (ev.children.toList.filterMap (fun c =>
        if localOf c = "infCorrecao" then
          some ("Campo: " ++ (foldFields c.children.toList).campo ++
            " | Valor: " ++ (foldFields c.children.toList).valor ++
            (if (foldFields c.children.toList).grupo ≠ "" then
              " | Grupo: " ++ (foldFields c.children.toList).grupo else "") ++
            (if (foldFields c.children.toList).nroItem ≠ "" then
              " | Item: " ++ (foldFields c.children.toList).nroItem else ""))
        else none)) := by
  rw [corrTextOf]
  simp only [hdirect, ne_eq, not_true_eq_false, if_false]
  rw [corrFallback, corrLines, hev]
  simp only [assembleLine]

/-- C2 amended witness: two structured entries — the spec's example entry and
one with a group — joined by a newline. -/
theorem c2_witness :
    corrTextOf "u" (some detFix) =
      "Campo: Amount | Valor: 100.00 | Item: 2\nCampo: cMunIni | Valor: 3550308 | Grupo: ide" := by
  rw [c2_amended_fallback "u" detFix evCCeFix (by decide) rfl]
  decide

/-- C10: within one `infCorrecao` entry the assigning loop keeps the last
occurrence (in document order) of each sub-field, and an occurrence with no
text contributes the empty string. -/
theorem c10_last_occurrence (cs : List Element) :
    ((foldFields cs).grupo = (lastMatch "grupoAlterado" cs).elim "" textOrEmpty) ∧
    ((foldFields cs).campo = (lastMatch "campoAlterado" cs).elim "" textOrEmpty) ∧
    ((foldFields cs).valor = (lastMatch "valorAlterado" cs).elim "" textOrEmpty) ∧
    ((foldFields cs).nroItem = (lastMatch "nroItemAlterado" cs).elim "" textOrEmpty) ∧
    (∀ e : Element, e.text = none → textOrEmpty e = "") :=
  ⟨foldl_proj "grupoAlterado" Fields.grupo stepField_grupo cs ⟨"", "", "", ""⟩,
   foldl_proj "campoAlterado" Fields.campo stepField_campo cs ⟨"", "", "", ""⟩,
   foldl_proj "valorAlterado" Fields.valor stepField_valor cs ⟨"", "", "", ""⟩,
   foldl_proj "nroItemAlterado" Fields.nroItem stepField_nroItem cs ⟨"", "", "", ""⟩,
   fun e he => by rw [textOrEmpty, he]; rfl⟩

/-! ## Helper lemmas: page structure -/

theorem mem_catchCmds_map {β : Type} {x : Except String β} {g : β → List Cmd} {c : Cmd}
    (hc : c ∈ catchCmds (x.map g)) : ∃ b, c ∈ g b := by
  cases x with
  | ok b => exact ⟨b, by simpa [catchCmds, Except.map] using hc⟩
  | error e => simp [catchCmds, Except.map] at hc

theorem eventIdBlock_text {x : Option Element} {c : Cmd}
    (hc : c ∈ catchCmds (eventIdBlock x)) : ∃ s, c = Cmd.text 92 30 s := by
  cases x with
  | none => simp [eventIdBlock, catchCmds] at hc
  | some e =>
    rw [eventIdBlock] at hc
    obtain ⟨b, hb⟩ := mem_catchCmds_map hc
    simp only [List.mem_singleton] at hb
    exact ⟨_, hb⟩

theorem createdBlock_text {uri : String} {x : Option Element} {c : Cmd}
    (hc : c ∈ catchCmds (createdBlock uri x)) : ∃ s, c = Cmd.text 92 35 s := by
  rw [createdBlock] at hc
  obtain ⟨b, hb⟩ := mem_catchCmds_map hc
  simp only [List.mem_singleton] at hb
  exact ⟨_, hb⟩

theorem protocolBlock_text {uri : String} {x : Option Element} {c : Cmd}
    (hc : c ∈ catchCmds (protocolBlock uri x)) : ∃ s, c = Cmd.text 92 40 s := by
  cases x with
  | none => simp [protocolBlock, catchCmds] at hc
  | some r =>
    rw [protocolBlock] at hc
    split at hc
    · obtain ⟨b, hb⟩ := mem_catchCmds_map hc
      simp only [List.mem_singleton] at hb
      exact ⟨_, hb⟩
    · simp [catchCmds] at hc

theorem nfBlock_text {key : String} {c : Cmd}
    (hc : c ∈ catchCmds (nfBlock key)) : ∃ s, c = Cmd.text 12 76 s := by
  rw [nfBlock] at hc
  obtain ⟨b, hb⟩ := mem_catchCmds_map hc
  simp only [List.mem_singleton] at hb
  exact ⟨_, hb⟩

theorem pagePre_no_barcode (emit : Option Emitente) (hImg : Bool) (root : Element) :
    Cmd.image ImgKind.barcode ∉ pagePre emit hImg root := by
  intro hc
  cases hImg <;>
  · simp only [pagePre, List.mem_append, List.mem_cons, List.not_mem_nil, or_false,
      false_or, Bool.false_eq_true, if_false, if_true, Cmd.image.injEq,
      reduceCtorEq] at hc
    rcases hc with (hc | hc) | hc
    · obtain ⟨s, hs⟩ := eventIdBlock_text hc
      exact Cmd.noConfusion hs
    · obtain ⟨s, hs⟩ := createdBlock_text hc
      exact Cmd.noConfusion hs
    · obtain ⟨s, hs⟩ := protocolBlock_text hc
      exact Cmd.noConfusion hs

theorem pagePost_no_barcode (root : Element) :
    Cmd.image ImgKind.barcode ∉ pagePost root := by
  intro hc
  simp only [pagePost, List.mem_append, List.mem_cons, List.not_mem_nil, or_false,
    false_or, reduceCtorEq] at hc
  obtain ⟨s, hs⟩ := nfBlock_text hc
  exact Cmd.noConfusion hs

theorem fixed_mem_buildPage (bOk : String → Bool) (emit : Option Emitente) (hImg : Bool)
    (root : Element) : ∀ c ∈ fixedCmds, c ∈ buildPage bOk emit hImg root := by
  intro c hc
  fin_cases hc <;>
    simp [buildPage, pagePre, pagePost, List.mem_append, List.mem_cons]

/-! ## Claims C1 and C9: robustness of the whole page -/

/-- C1: every parsed tree — whatever substructures it lacks — still produces
the complete fixed page (construction is total, a fault can only come from
the XML parse itself, which is outside the tree model); each absent
substructure degrades exactly its own output: a missing `infEvento` empties
the access key, and the event-id, creation, protocol and correction blocks
each degrade to nothing / the empty string when their node is absent. -/
theorem c1_extraction_robust (bOk : String → Bool) (emit : Option Emitente) (hImg : Bool)
    (root : Element) :
    (∀ c ∈ fixedCmds, c ∈ buildPage bOk emit hImg root) ∧
    (findInEls (nsURI root) "infEvento" root.children = none → keyOf root = "") ∧
    (∀ uri tag, findTextNs uri none tag = "") ∧
    catchCmds (eventIdBlock none) = [] ∧
    (∀ uri, catchCmds (createdBlock uri none) = []) ∧
    (∀ uri, catchCmds (protocolBlock uri none) = []) ∧
    (∀ uri, corrTextOf uri none = "") := by
  refine ⟨fixed_mem_buildPage bOk emit hImg root, ?_, fun uri tag => rfl, rfl,
    fun uri => rfl, fun uri => rfl, fun uri => rfl⟩
  intro h
  rw [keyOf]
  simp only [h]
  rfl

/-- C1 witness: the bare one-element tree still receives the fixed commands
and resolves its key to empty. -/
theorem c1_witness :
    Cmd.addPage ∈ buildPage (fun _ => true) none false
      (Element.mk "u" "r" [] none (els [])) ∧
    keyOf (Element.mk "u" "r" [] none (els [])) = "" := by
  have h := c1_extraction_robust (fun _ => true) none false
    (Element.mk "u" "r" [] none (els []))
  exact ⟨h.1 Cmd.addPage (by decide), h.2.1 rfl⟩

/-- C9: when the external barcode encoder fails on the key, the page equals
the same page with only the barcode image dropped: no barcode image command
is issued, while the grouped access-key text and every fixed element are
still rendered. -/
theorem c9_barcode_degrade (bOk : String → Bool) (emit : Option Emitente) (hImg : Bool)
    (root : Element) (h : bOk (keyOf root) = false) :
    buildPage bOk emit hImg root = pagePre emit hImg root ++ pagePost root ∧
    Cmd.image ImgKind.barcode ∉ buildPage bOk emit hImg root ∧
    Cmd.text 130 78 (String.intercalate " " (chunks4 (keyOf root).toList)) ∈
      buildPage bOk emit hImg root ∧
    (∀ c ∈ fixedCmds, c ∈ buildPage bOk emit hImg root) := by
  have heq : buildPage bOk emit hImg root = pagePre emit hImg root ++ pagePost root := by
    rw [buildPage, h]
    simp
  refine ⟨heq, ?_, ?_, fixed_mem_buildPage bOk emit hImg root⟩
  · rw [heq]
    intro hc
    rcases List.mem_append.1 hc with hc | hc
    · exact pagePre_no_barcode emit hImg root hc
    · exact pagePost_no_barcode root hc
  · rw [heq]
    refine List.mem_append_right _ ?_
    simp [pagePost]

/-- C9 witness: with an always-failing encoder the bare tree's page is the
barcode-free page and carries no barcode image command. -/
theorem c9_witness :
    buildPage (fun _ => false) none false (Element.mk "u" "r" [] none (els [])) =
      pagePre none false (Element.mk "u" "r" [] none (els [])) ++
        pagePost (Element.mk "u" "r" [] none (els [])) ∧
    Cmd.image ImgKind.barcode ∉
      buildPage (fun _ => false) none false (Element.mk "u" "r" [] none (els [])) := by
  have h := c9_barcode_degrade (fun _ => false) none false
    (Element.mk "u" "r" [] none (els [])) rfl
  exact ⟨h.1, h.2.1⟩

end DaCCe
